import Mathlib

/-!
Verification of the synapse-state coordination layer.

This file gives a shallow embedding of the coordination core:
the Git-backed state agent (src/sync/git_agent.py), the round-robin
turn scheduling of the main loop (src/gn_streamer.py), and the
configuration loader (src/config.py).  Persisted JSON files are
modelled by a small JSON value type; a file whose content fails to
parse as JSON is modelled as `none`.  Wall-clock instants are integers
(unix seconds); `time.time()` samples are passed as explicit arguments.
-/

namespace Synapse

/-- JSON values as produced by Python's json.load.  An object is the
parsed dictionary, listed as key/value pairs with distinct keys. -/
inductive Json where
  | null
  | bool (b : Bool)
  | num (n : Int)
  | str (s : String)
  | arr (xs : List Json)
  | obj (fields : List (String × Json))

/-- Python d.get(key): some value when the key is present, none otherwise. -/
def jlookup : List (String × Json) → String → Option Json
  | [], _ => none
  | (k, v) :: rest, key => if k = key then some v else jlookup rest key

/-- Python d.get(key, default). -/
def jgetD (fields : List (String × Json)) (key : String) (d : Json) : Json :=
  (jlookup fields key).getD d

/-- The numeric reading a Python arithmetic context gives a JSON value:
numbers are themselves, booleans are 0/1 (bool is an int subclass),
anything else raises TypeError (modelled as none). -/
def Json.asNum : Json → Option Int
  | .num n => some n
  | .bool b => some (if b then 1 else 0)
  | _ => none

/-- Whether a JSON value is an object (a Python dict, on which .get exists). -/
def Json.isObj : Json → Bool
  | .obj _ => true
  | _ => false

/-! ## EventBus: cleanup_local_events (GitAgent.cleanup_local_events) -/

/-- What cleanup_local_events decides for one event file. -/
inductive ReapDecision where
  | keep
  | remove
  | error
  deriving DecidableEq

def ReapDecision.isError : ReapDecision → Bool
  | .error => true
  | _ => false

def ReapDecision.isKeep : ReapDecision → Bool
  | .keep => true
  | _ => false

/-- The pair (created_at, ttl) the code computes for a parsed event object:
created_at = data.get("timestamp", 0), ttl = data.get("ttl", 60), read
numerically; none when a later + or > raises TypeError. -/
def eventTimes (j : Json) : Option (Int × Int) :=
  match j with
  | .obj fields =>
      match (jgetD fields "timestamp" (.num 0)).asNum,
            (jgetD fields "ttl" (.num 60)).asNum with
      | some t, some s => some (t, s)
      | _, _ => none
  | _ => none

/-- Per-file decision of cleanup_local_events at time now.  A file whose
content is not JSON raises json.JSONDecodeError, a parsed non-dict raises
AttributeError at .get; both are caught and the file is scheduled for
removal.  A dict is removed iff now > created_at + ttl; non-numeric
fields make the addition/comparison raise an uncaught TypeError. -/
def reapDecision (now : Int) (content : Option Json) : ReapDecision :=
  match content with
  | none => .remove
  | some j =>
      match j with
      | .obj _ =>
          match eventTimes j with
          | some (t, s) => if now > t + s then .remove else .keep
          | none => .error
      | _ => .remove

/-- cleanup_local_events over the events directory, given as the list of
*.json files paired with their parsed content.  If any file makes the
per-file computation raise, the exception propagates and nothing is
removed; otherwise the surviving directory is returned. -/
def cleanup_local_events (now : Int) (files : List (String × Option Json)) :
    Except Unit (List (String × Option Json)) :=
  if files.any (fun g => (reapDecision now g.2).isError) then .error ()
  else .ok (files.filter (fun g => (reapDecision now g.2).isKeep))

/-! ## WorldStateBuilder: get_world_state -/

/-- One entry of the nodes list built by get_world_state: the file stem
plus data.get of the three fields (none becomes JSON null on export). -/
structure NodeEntry where
  id : String
  stream_id : Json
  timestamp : Json
  creation_timestamp : Json

def nodeEntryOfFields (stem : String) (fields : List (String × Json)) : NodeEntry :=
  { id := stem
    stream_id := jgetD fields "stream_id" .null
    timestamp := jgetD fields "timestamp" .null
    creation_timestamp := jgetD fields "creation_timestamp" .null }

/-- The world-state aggregate. -/
structure WorldState where
  nodes : List NodeEntry
  connections : List Json
  events : List Json

/-- The node-record loop of get_world_state: a file that fails to parse
is skipped (JSONDecodeError is caught); a parsed dict becomes an entry;
a parsed non-dict raises AttributeError at .get, which is not caught. -/
def buildNodes : List (String × Option Json) → Except Unit (List NodeEntry)
  | [] => .ok []
  | (stem, c) :: rest =>
      match c with
      | none => buildNodes rest
      | some (Json.obj fields) =>
          match buildNodes rest with
          | .ok ns => .ok (nodeEntryOfFields stem fields :: ns)
          | .error e => .error e
      | some _ => .error ()

/-- The entry a node file contributes, if any: parsed dicts contribute,
unparseable files are skipped. -/
def nodeEntryOf (f : String × Option Json) : Option NodeEntry :=
  match f.2 with
  | some (Json.obj fields) => some (nodeEntryOfFields f.1 fields)
  | _ => none

/-- Scope predicate: a node file either fails to parse or parses to a
dict (the cases the aggregate build handles without raising). -/
def nodeFileOk : Option Json → Bool
  | none => true
  | some (Json.obj _) => true
  | some _ => false

/-- GitAgent.get_world_state: aggregate every parseable node record and
every parseable event file; connections is always empty. -/
def get_world_state (nodeFiles eventFiles : List (String × Option Json)) :
    Except Unit WorldState :=
  match buildNodes nodeFiles with
  | .ok ns => .ok { nodes := ns, connections := [], events := eventFiles.filterMap (fun f => f.2) }
  | .error e => .error e

/-! ## NodeRegistry: push_heartbeat -/

/-- The record push_heartbeat writes to nodes/<node_id>.json. -/
structure NodeData where
  stream_id : Json
  timestamp : Int
  creation_timestamp : Json

/-- The JSON object json.dump writes for a node record. -/
def NodeData.toJson (d : NodeData) : Json :=
  .obj [("stream_id", d.stream_id), ("timestamp", .num d.timestamp),
        ("creation_timestamp", d.creation_timestamp)]

/-- What reading the node's own prior file can yield: the file is absent,
unreadable (json.JSONDecodeError or OSError, both caught), or parsed. -/
inductive NodeFileRead where
  | absent
  | unreadable
  | parsed (j : Json)

/-- GitAgent.push_heartbeat at time current_time: preserve the prior
record's creation_timestamp when one can be read, else use current_time.
A prior file parsing to a non-dict raises AttributeError at .get, which
the except clause does not catch. -/
def push_heartbeat (prev : NodeFileRead) (stream_id : Json) (current_time : Int) :
    Except Unit NodeData :=
  match prev with
  | .absent => .ok ⟨stream_id, current_time, .num current_time⟩
  | .unreadable => .ok ⟨stream_id, current_time, .num current_time⟩
  | .parsed (.obj fields) =>
      .ok ⟨stream_id, current_time, jgetD fields "creation_timestamp" (.num current_time)⟩
  | .parsed _ => .error ()

/-! ## RepositorySync: retry_on_git_error -/

/-- One git attempt either returns a value or raises GitCommandError. -/
def GitAttempt (α : Type) := Nat → Except Unit α

/-- The retry loop of the decorator: range(max_retries) attempts,
returning the first success; after the last failure the wrapper falls
through to return None. -/
def retryLoop (f : GitAttempt α) : Nat → Nat → Option α
  | 0, _ => none
  | fuel + 1, attempt =>
      match f attempt with
      | .ok v => some v
      | .error _ => retryLoop f fuel (attempt + 1)

/-- retry_on_git_error with its default max_retries = 3, applied to an
operation whose outcome on the i-th attempt is f i. -/
def retry_on_git_error (f : GitAttempt α) : Option α :=
  retryLoop f 3 0

/-! ## TurnScheduler: the round-robin decision of _main_loop -/

/-- Lexicographic comparison of character sequences, as Python compares
strings (by code point, shorter prefix first). -/
def charListLe : List Char → List Char → Bool
  | [], _ => true
  | _ :: _, [] => false
  | a :: as, b :: bs => if a < b then true else if b < a then false else charListLe as bs

/-- Python string ≤. -/
def strLe (a b : String) : Bool := charListLe a.data b.data

/-- Insertion of one id into an already-sorted id list. -/
def insertSorted (x : String) : List String → List String
  | [] => [x]
  | y :: ys => if strLe x y then x :: y :: ys else y :: insertSorted x ys

/-- Python sorted(nodes, key=id) over the ids: the lexicographically
sorted permutation of the id list. -/
def sortNodeIds (l : List String) : List String :=
  l.foldr insertSorted []

/-- tick = int(now / interval); turn_index = tick % num_nodes. -/
def turnIndex (now interval n : Nat) : Nat :=
  (now / interval) % n

/-- my_index: the first position of self in the sorted list, as the
comprehension [i for i, n in enumerate(sorted_nodes) if n.id == self][0]
computes it; none models the IndexError branch. -/
def firstIndexOf (self : String) : List String → Option Nat
  | [] => none
  | x :: xs => if x = self then some 0 else (firstIndexOf self xs).map (· + 1)

/-- The identifier of the node the current time-slice authorizes:
sorted_nodes[turn_index].id; none when the node list is empty. -/
def authorizedNode (nodes : List String) (now interval : Nat) : Option String :=
  let s := sortNodeIds nodes
  if s.isEmpty then none else s.get? (turnIndex now interval s.length)

/-- Whether a given node concludes the slice is its turn: some true /
some false once scheduling happens, none when the loop defers (empty
list, or self absent from it). -/
def isMyTurn (self : String) (nodes : List String) (now interval : Nat) : Option Bool :=
  let s := sortNodeIds nodes
  if s.isEmpty then none
  else
    match firstIndexOf self s with
    | none => none
    | some i => some (i == turnIndex now interval s.length)

/-- Which writes one tick of _main_loop performs. -/
structure TickResult where
  heartbeat : Bool
  event : Bool
  deriving DecidableEq

def PULSE_INTERVAL : Nat := 20

/-- The write decision of one tick of SynapseNode._main_loop, given the
aggregated node-id list, this node's id, the current time, the tick
interval and the last pulse time: defer on an empty list or when self is
absent; otherwise push a heartbeat exactly on this node's turn, plus a
pulse event when the cooldown elapsed and another node exists. -/
def mainLoopTick (nodes : List String) (self : String) (now interval lastPulse : Nat) :
    TickResult :=
  let s := sortNodeIds nodes
  if s.isEmpty then ⟨false, false⟩
  else
    match firstIndexOf self s with
    | none => ⟨false, false⟩
    | some i =>
        if i = turnIndex now interval s.length then
          let others := s.filter (fun x => x != self)
          ⟨true, decide (PULSE_INTERVAL < now - lastPulse) && !others.isEmpty⟩
        else ⟨false, false⟩

/-! ## EventBus: push_event -/

/-- The event record push_event writes.  The clock is sampled twice:
t1 for the identifier, t2 for the stored timestamp (two separate
int(time.time()) calls); both are unix seconds. -/
structure EventData where
  id : String
  type : String
  node_id : String
  timestamp : Nat
  ttl : Int
  data : Json

/-- GitAgent.push_event with clock samples t1 (id) and t2 (timestamp). -/
def push_event (event_type node_id : String) (d : Json) (ttl : Int) (t1 t2 : Nat) :
    EventData :=
  { id := event_type ++ "-" ++ node_id ++ "-" ++ Nat.repr t1
    type := event_type
    node_id := node_id
    timestamp := t2
    ttl := ttl
    data := d }

/-! ## Config: get_config -/

/-- The configuration record, restricted to the fields the claims touch. -/
structure Config where
  NODE_ID : String
  GIT_REPO_URL : String
  SYNC_INTERVAL_SECONDS : Nat

/-- A lowercase hexadecimal digit, the alphabet of uuid4().hex. -/
def isLowerHex (c : Char) : Bool :=
  c.isDigit || ('a' ≤ c && c ≤ 'f')

/-- The generated default node id: "node_" plus uuid.uuid4().hex[:8]. -/
def genNodeId (uuidHex : List Char) : String :=
  "node_" ++ String.mk (uuidHex.take 8)

/-- The NODE_ID default factory: os.getenv('SYNAPSE_NODE_ID') or a
generated id (the or falls through on None and on the empty string). -/
def nodeIdFromEnv (env : String → Option String) (uuidHex : List Char) : String :=
  match env "SYNAPSE_NODE_ID" with
  | some s => if s = "" then genNodeId uuidHex else s
  | none => genNodeId uuidHex

/-- get_config over an environment (os.getenv) and the hex digits of the
fresh uuid4 drawn by this call.  NODE_ID falls back to the generated id
when SYNAPSE_NODE_ID is unset or empty (Python or on a falsy string);
post-init validation raises ValueError when SYNAPSE_GIT_REPO_URL is
unset or empty. -/
def get_config (env : String → Option String) (uuidHex : List Char) :
    Except Unit Config :=
  match env "SYNAPSE_GIT_REPO_URL" with
  | some url =>
      if url = "" then .error ()
      else .ok ⟨nodeIdFromEnv env uuidHex, url, 30⟩
  | none => .error ()

/-! ## Concrete sample inputs -/

/-- An event record with ttl_seconds = 10 published at t = 0. -/
def sampleEventJson : Json :=
  .obj [("id", .str "pulse-node_a-0"), ("type", .str "pulse"),
        ("node_id", .str "node_a"), ("timestamp", .num 0),
        ("ttl", .num 10), ("data", .obj [])]

def sampleEventFile : String × Option Json :=
  ("pulse-node_a-0.json", some sampleEventJson)

def sampleEventsDir : List (String × Option Json) := [sampleEventFile]

/-- Node files: one well-formed record and one corrupt file. -/
def sampleNodeFiles : List (String × Option Json) :=
  [("n1", some (.obj [("stream_id", .str "s1"), ("timestamp", .num 100),
                      ("creation_timestamp", .num 50)])),
   ("n2", none)]

/-- Event files: one already expired and one still live at t = 100. -/
def sampleEventFiles : List (String × Option Json) :=
  [("old.json", some (.obj [("id", .str "old"), ("timestamp", .num 0), ("ttl", .num 10)])),
   ("new.json", some (.obj [("id", .str "new"), ("timestamp", .num 95), ("ttl", .num 60)]))]

/-- An environment with only SYNAPSE_GIT_REPO_URL set. -/
def sampleEnv : String → Option String := fun k =>
  if k = "SYNAPSE_GIT_REPO_URL" then some "https://example.invalid/state.git" else none

/-- The hex digits of one concrete uuid4 draw. -/
def sampleUuidHex : List Char := "0123456789abcdef0123456789abcdef".data

/-! ## Lemmas about sorting and indices -/

theorem insertSorted_perm (x : String) (l : List String) :
    List.Perm (insertSorted x l) (x :: l) := by
  induction l with
  | nil => simp [insertSorted]
  | cons y ys ih =>
      simp only [insertSorted]
      by_cases h : strLe x y = true
      · simp [h]
      · simp only [h, if_false]
        exact (List.Perm.cons y ih).trans (List.Perm.swap x y ys)

theorem sortNodeIds_perm (l : List String) : List.Perm (sortNodeIds l) l := by
  induction l with
  | nil => simp [sortNodeIds]
  | cons x xs ih =>
      have : sortNodeIds (x :: xs) = insertSorted x (sortNodeIds xs) := rfl
      rw [this]
      exact (insertSorted_perm x (sortNodeIds xs)).trans (List.Perm.cons x ih)

theorem mem_sortNodeIds {a : String} {l : List String} :
    a ∈ sortNodeIds l ↔ a ∈ l :=
  (sortNodeIds_perm l).mem_iff

theorem sortNodeIds_nodup {l : List String} (h : l.Nodup) :
    (sortNodeIds l).Nodup :=
  ((sortNodeIds_perm l).nodup_iff).mpr h

theorem firstIndexOf_eq_none {self : String} {l : List String} :
    firstIndexOf self l = none ↔ self ∉ l := by
  induction l with
  | nil => simp [firstIndexOf]
  | cons x xs ih =>
      by_cases h : x = self
      · subst h
        simp [firstIndexOf]
      · simp only [firstIndexOf, h, if_false, List.mem_cons]
        rw [Option.map_eq_none', ih]
        constructor
        · intro hn hc
          rcases hc with hc | hc
          · exact h hc.symm
          · exact hn hc
        · intro hn hc
          exact hn (Or.inr hc)

theorem firstIndexOf_get? {self : String} {l : List String} {i : Nat}
    (h : firstIndexOf self l = some i) : l.get? i = some self := by
  induction l generalizing i with
  | nil => simp [firstIndexOf] at h
  | cons x xs ih =>
      simp only [firstIndexOf] at h
      by_cases hx : x = self
      · simp only [hx, if_pos rfl] at h
        cases h
        simp [hx]
      · simp only [hx, if_false] at h
        cases hfi : firstIndexOf self xs with
        | none => rw [hfi] at h; simp at h
        | some j =>
            rw [hfi] at h
            simp only [Option.map_some', Option.some.injEq] at h
            subst h
            simpa using ih hfi

theorem get?_firstIndexOf {self : String} {l : List String} {i : Nat}
    (hnd : l.Nodup) (h : l.get? i = some self) : firstIndexOf self l = some i := by
  induction l generalizing i with
  | nil => simp at h
  | cons x xs ih =>
      rcases List.nodup_cons.mp hnd with ⟨hx_notin, hnd'⟩
      cases i with
      | zero =>
          simp only [List.get?] at h
          cases h
          simp [firstIndexOf]
      | succ j =>
          simp only [List.get?] at h
          have hmem : self ∈ xs := List.get?_mem h
          have hx : x ≠ self := by
            intro hc; subst hc; exact hx_notin hmem
          simp only [firstIndexOf, hx, if_false, ih hnd' h, Option.map_some']

/-! ## Decimal representation: injectivity of Nat.repr -/

theorem toDigitsCore_fuel_irrel (f g n : Nat) (acc : List Char)
    (hf : n < f) (hg : n < g) :
    Nat.toDigitsCore 10 f n acc = Nat.toDigitsCore 10 g n acc := by
  induction f generalizing g n acc with
  | zero => omega
  | succ f ih =>
      cases g with
      | zero => omega
      | succ g =>
          simp only [Nat.toDigitsCore]
          by_cases h : n / 10 = 0
          · simp [h]
          · simp only [h, if_false]
            exact ih g (n / 10) _ (by omega) (by omega)

theorem toDigitsCore_shift (f n : Nat) (acc : List Char) :
    Nat.toDigitsCore 10 f n acc = Nat.toDigitsCore 10 f n [] ++ acc := by
  induction f generalizing n acc with
  | zero => simp [Nat.toDigitsCore]
  | succ f ih =>
      simp only [Nat.toDigitsCore]
      by_cases h : n / 10 = 0
      · simp [h]
      · simp only [h, if_false]
        rw [ih (n / 10) _, ih (n / 10) [Nat.digitChar (n % 10)], List.append_assoc]
        rfl

theorem toDigits_lt (n : Nat) (h : n < 10) :
    Nat.toDigits 10 n = [Nat.digitChar n] := by
  have h10 : n / 10 = 0 := Nat.div_eq_of_lt h
  simp [Nat.toDigits, Nat.toDigitsCore, h10, Nat.mod_eq_of_lt h]

theorem toDigits_ge (n : Nat) (h : 10 ≤ n) :
    Nat.toDigits 10 n = Nat.toDigits 10 (n / 10) ++ [Nat.digitChar (n % 10)] := by
  have h10 : n / 10 ≠ 0 := by omega
  show Nat.toDigitsCore 10 (n + 1) n [] = _
  simp only [Nat.toDigitsCore, h10, if_false]
  rw [toDigitsCore_fuel_irrel n (n / 10 + 1) (n / 10) _ (by omega) (by omega)]
  rw [toDigitsCore_shift]
  rfl

theorem toDigits_ne_nil (n : Nat) : Nat.toDigits 10 n ≠ [] := by
  by_cases h : n < 10
  · rw [toDigits_lt n h]; simp
  · rw [toDigits_ge n (by omega)]; simp

theorem digitChar_inj : ∀ a < 10, ∀ b < 10, Nat.digitChar a = Nat.digitChar b → a = b := by
  decide

theorem toDigits_injective : ∀ m n : Nat, Nat.toDigits 10 m = Nat.toDigits 10 n → m = n := by
  intro m
  induction m using Nat.strong_induction_on with
  | _ m ih =>
      intro n heq
      by_cases hm : m < 10 <;> by_cases hn : n < 10
      · rw [toDigits_lt m hm, toDigits_lt n hn] at heq
        exact digitChar_inj m hm n hn (List.cons.inj heq).1
      · rw [toDigits_lt m hm, toDigits_ge n (by omega)] at heq
        have : ([Nat.digitChar m] : List Char).length =
            (Nat.toDigits 10 (n / 10) ++ [Nat.digitChar (n % 10)]).length :=
          congrArg List.length heq
        simp only [List.length_singleton, List.length_append] at this
        have := List.length_pos.mpr (toDigits_ne_nil (n / 10))
        omega
      · rw [toDigits_ge m (by omega), toDigits_lt n hn] at heq
        have : (Nat.toDigits 10 (m / 10) ++ [Nat.digitChar (m % 10)]).length =
            ([Nat.digitChar n] : List Char).length :=
          congrArg List.length heq
        simp only [List.length_singleton, List.length_append] at this
        have := List.length_pos.mpr (toDigits_ne_nil (m / 10))
        omega
      · rw [toDigits_ge m (by omega), toDigits_ge n (by omega)] at heq
        have hlen : ([Nat.digitChar (m % 10)] : List Char).length =
            ([Nat.digitChar (n % 10)] : List Char).length := by simp
        obtain ⟨h1, h2⟩ := List.append_inj' heq hlen
        have hdiv : m / 10 = n / 10 := ih (m / 10) (by omega) (n / 10) h1
        have hmod : m % 10 = n % 10 :=
          digitChar_inj (m % 10) (Nat.mod_lt m (by omega)) (n % 10)
            (Nat.mod_lt n (by omega)) (List.cons.inj h2).1
        omega

theorem natRepr_injective {m n : Nat} (h : Nat.repr m = Nat.repr n) : m = n := by
  apply toDigits_injective
  have : (Nat.toDigits 10 m).asString.data = (Nat.toDigits 10 n).asString.data :=
    congrArg String.data h
  simpa [List.asString] using this

theorem string_append_cancel_left {p s t : String} (h : p ++ s = p ++ t) : s = t := by
  apply String.ext
  have : (p ++ s).data = (p ++ t).data := congrArg String.data h
  simp only [String.data_append] at this
  exact List.append_cancel_left this

theorem cleanup_ok_of_no_error (now : Int) (files : List (String × Option Json))
    (hsafe : ∀ g ∈ files, reapDecision now g.2 ≠ .error) :
    cleanup_local_events now files =
      .ok (files.filter (fun g => (reapDecision now g.2).isKeep)) := by
  have hany : files.any (fun g => (reapDecision now g.2).isError) = false := by
    rw [List.any_eq_false]
    intro g hg
    cases hrd : reapDecision now g.2 with
    | error => exact absurd hrd (hsafe g hg)
    | keep => simp [ReapDecision.isError]
    | remove => simp [ReapDecision.isError]
  unfold cleanup_local_events
  rw [hany]
  simp

/-- C1: cleanup_local_events removes an event file exactly when
now > published_at + ttl_seconds; a well-formed event record is kept by
a reap strictly before expiry and removed by one strictly after it. -/
theorem cleanup_removes_event_iff_expired
    (now : Int) (files : List (String × Option Json))
    (hsafe : ∀ g ∈ files, reapDecision now g.2 ≠ .error)
    (f : String × Option Json) (j : Json) (t s : Int)
    (hf : f ∈ files) (hj : f.2 = some j) (ht : eventTimes j = some (t, s)) :
    ∃ kept, cleanup_local_events now files = .ok kept ∧
      (f ∈ kept ↔ ¬now > t + s) := by
  refine ⟨_, cleanup_ok_of_no_error now files hsafe, ?_⟩
  have hobj : ∃ fields, j = Json.obj fields := by
    cases j with
    | obj fields => exact ⟨fields, rfl⟩
    | null => simp [eventTimes] at ht
    | bool b => simp [eventTimes] at ht
    | num n => simp [eventTimes] at ht
    | str s => simp [eventTimes] at ht
    | arr xs => simp [eventTimes] at ht
  obtain ⟨fields, rfl⟩ := hobj
  have hdec : reapDecision now f.2 = if now > t + s then .remove else .keep := by
    rw [hj]
    simp only [reapDecision, ht]
  by_cases hgt : now > t + s
  · rw [if_pos hgt] at hdec
    constructor
    · intro hmem
      have := (List.mem_filter.mp hmem).2
      rw [hdec] at this
      simp [ReapDecision.isKeep] at this
    · intro hc
      exact absurd hgt hc
  · rw [if_neg hgt] at hdec
    constructor
    · intro _
      exact hgt
    · intro _
      exact List.mem_filter.mpr ⟨hf, by rw [hdec]; rfl⟩

/-- C1 witness: an event with ttl 10 published at t = 0 is kept by a
reap at now = 9 and removed by a reap at now = 11. -/
theorem cleanup_removes_event_iff_expired_witness :
    (∃ kept, cleanup_local_events 9 sampleEventsDir = .ok kept ∧
      (sampleEventFile ∈ kept ↔ ¬(9 : Int) > 0 + 10)) ∧
    (∃ kept, cleanup_local_events 11 sampleEventsDir = .ok kept ∧
      (sampleEventFile ∈ kept ↔ ¬(11 : Int) > 0 + 10)) :=
  ⟨cleanup_removes_event_iff_expired 9 sampleEventsDir (by decide)
      sampleEventFile sampleEventJson 0 10 (List.mem_singleton.mpr rfl) rfl (by decide),
   cleanup_removes_event_iff_expired 11 sampleEventsDir (by decide)
      sampleEventFile sampleEventJson 0 10 (List.mem_singleton.mpr rfl) rfl (by decide)⟩

/-- C9: cleanup_local_events also removes, regardless of TTL, every
event file whose content fails to parse as JSON and every one parsing to
a non-dict; a dict missing "ttl" is reaped against default ttl 60 and
one missing "timestamp" against publication time 0. -/
theorem cleanup_malformed_and_defaults :
    (∀ now : Int, reapDecision now none = .remove) ∧
    (∀ (now : Int) (j : Json), j.isObj = false → reapDecision now (some j) = .remove) ∧
    (∀ (now : Int) (files : List (String × Option Json)) (f : String × Option Json),
       (∀ g ∈ files, reapDecision now g.2 ≠ .error) → f ∈ files → f.2 = none →
       ∃ kept, cleanup_local_events now files = .ok kept ∧ f ∉ kept) ∧
    (∀ (now t : Int) (fields : List (String × Json)),
       jlookup fields "ttl" = none →
       (jgetD fields "timestamp" (.num 0)).asNum = some t →
       reapDecision now (some (.obj fields)) =
         if now > t + 60 then .remove else .keep) ∧
    (∀ (now s : Int) (fields : List (String × Json)),
       jlookup fields "timestamp" = none →
       (jgetD fields "ttl" (.num 60)).asNum = some s →
       reapDecision now (some (.obj fields)) =
         if now > 0 + s then .remove else .keep) := by
  refine ⟨fun _ => rfl, ?_, ?_, ?_, ?_⟩
  · intro now j hj
    cases j with
    | obj fields => simp [Json.isObj] at hj
    | null => rfl
    | bool b => rfl
    | num n => rfl
    | str s => rfl
    | arr xs => rfl
  · intro now files f hsafe hf hnone
    refine ⟨_, cleanup_ok_of_no_error now files hsafe, ?_⟩
    intro hmem
    have := (List.mem_filter.mp hmem).2
    rw [hnone] at this
    simp [reapDecision, ReapDecision.isKeep] at this
  · intro now t fields httl htime
    have : eventTimes (Json.obj fields) = some (t, 60) := by
      simp only [jgetD] at htime
      simp only [eventTimes, jgetD, httl, Option.getD_none, htime]
      rfl
    simp only [reapDecision, this]
  · intro now s fields htime httl
    have : eventTimes (Json.obj fields) = some (0, s) := by
      simp only [jgetD] at httl
      simp only [eventTimes, jgetD, htime, Option.getD_none, httl]
      rfl
    simp only [reapDecision, this]

/-- C9 witness: a non-JSON file and a JSON array are reaped outright,
a malformed file is dropped from the directory, and the defaults
ttl = 60 and published_at = 0 govern records missing those fields. -/
theorem cleanup_malformed_and_defaults_witness :
    reapDecision 3 none = .remove ∧
    reapDecision 3 (some (Json.arr [])) = .remove ∧
    (∃ kept, cleanup_local_events 3 [("bad.json", (none : Option Json))] = .ok kept ∧
      ("bad.json", (none : Option Json)) ∉ kept) ∧
    reapDecision 100 (some (Json.obj [("timestamp", Json.num 0)])) =
      (if (100 : Int) > 0 + 60 then .remove else .keep) ∧
    reapDecision 50 (some (Json.obj [("ttl", Json.num 30)])) =
      (if (50 : Int) > 0 + 30 then .remove else .keep) :=
  ⟨cleanup_malformed_and_defaults.1 3,
   cleanup_malformed_and_defaults.2.1 3 (Json.arr []) rfl,
   cleanup_malformed_and_defaults.2.2.1 3 [("bad.json", none)] ("bad.json", none)
     (by decide) (List.mem_singleton.mpr rfl) rfl,
   cleanup_malformed_and_defaults.2.2.2.1 100 0 [("timestamp", Json.num 0)] rfl rfl,
   cleanup_malformed_and_defaults.2.2.2.2 50 30 [("ttl", Json.num 30)] rfl rfl⟩

/-- C2: for a non-empty sorted list of N node ids and any tick T exactly
one index satisfies T mod N = index, and nodes evaluating the turn
decision on the same snapshot, time and interval agree: a node finds the
slice to be its own exactly when the authorized identifier computed from
the snapshot is its identifier. -/
theorem turn_exclusivity_and_agreement :
    (∀ N T : Nat, 0 < N → ∃! i : Nat, i < N ∧ T % N = i) ∧
    (∀ (nodes : List String) (now interval : Nat) (self : String),
       nodes.Nodup → self ∈ nodes →
       (isMyTurn self nodes now interval = some true ↔
         authorizedNode nodes now interval = some self)) := by
  constructor
  · intro N T hN
    refine ⟨T % N, ⟨Nat.mod_lt T hN, rfl⟩, ?_⟩
    rintro y ⟨-, hy⟩
    exact hy.symm
  · intro nodes now interval self hnd hmem
    have hmem' : self ∈ sortNodeIds nodes := mem_sortNodeIds.mpr hmem
    have hne : (sortNodeIds nodes).isEmpty = false := by
      cases hs : sortNodeIds nodes with
      | nil => rw [hs] at hmem'; simp at hmem'
      | cons a l => rfl
    have hnd' : (sortNodeIds nodes).Nodup := sortNodeIds_nodup hnd
    obtain ⟨i, hi⟩ : ∃ i, firstIndexOf self (sortNodeIds nodes) = some i := by
      cases hfi : firstIndexOf self (sortNodeIds nodes) with
      | none => exact absurd (firstIndexOf_eq_none.mp hfi) (by simp [hmem'])
      | some i => exact ⟨i, rfl⟩
    simp only [isMyTurn, authorizedNode, hne, Bool.false_eq_true, if_false, hi]
    constructor
    · intro hb
      have hib : i = turnIndex now interval (sortNodeIds nodes).length := by
        simpa using hb
      rw [← hib]
      exact firstIndexOf_get? hi
    · intro hg
      have := get?_firstIndexOf hnd' hg
      rw [hi] at this
      have hib : i = turnIndex now interval (sortNodeIds nodes).length :=
        Option.some.inj this
      simp [hib]

/-- C2 witness: at N = 3, T = 7 the unique index is 7 mod 3; with the
snapshot ids [c, a, b] at now = 25, interval = 20, node b agrees with
the snapshot-computed authorized identifier. -/
theorem turn_exclusivity_and_agreement_witness :
    (∃! i : Nat, i < 3 ∧ 7 % 3 = i) ∧
    (isMyTurn "b" ["c", "a", "b"] 25 20 = some true ↔
      authorizedNode ["c", "a", "b"] 25 20 = some "b") :=
  ⟨turn_exclusivity_and_agreement.1 3 7 (by decide),
   turn_exclusivity_and_agreement.2 ["c", "a", "b"] 25 20 "b" (by decide) (by decide)⟩

/-- C6: with the sorted 3-node list [a, b, c] and a tick interval of
20 seconds, tick = floor(now / 20) and turn_index = tick mod 3 authorize
a at now = 0, b at now = 20, c at now = 40, and a again at now = 60. -/
theorem turn_rotation_three_nodes :
    authorizedNode ["a", "b", "c"] 0 20 = some "a" ∧
    authorizedNode ["a", "b", "c"] 20 20 = some "b" ∧
    authorizedNode ["a", "b", "c"] 40 20 = some "c" ∧
    authorizedNode ["a", "b", "c"] 60 20 = some "a" := by
  decide

/-- C7: a tick whose aggregated node list is empty, or whose sorted list
does not contain this node's identifier, performs no write: neither
push_heartbeat nor push_event is invoked. -/
theorem no_write_when_empty_or_absent
    (nodes : List String) (self : String) (now interval lastPulse : Nat)
    (h : nodes = [] ∨ self ∉ nodes) :
    mainLoopTick nodes self now interval lastPulse = ⟨false, false⟩ := by
  rcases h with h | h
  · subst h
    rfl
  · have hfi : firstIndexOf self (sortNodeIds nodes) = none :=
      firstIndexOf_eq_none.mpr (fun hc => h (mem_sortNodeIds.mp hc))
    by_cases he : (sortNodeIds nodes).isEmpty = true
    · simp [mainLoopTick, he]
    · simp [mainLoopTick, he, hfi]

/-- C7 witness: a tick with no known nodes, and one where node_x is not
among the aggregated ids, both perform no write. -/
theorem no_write_when_empty_or_absent_witness :
    mainLoopTick [] "node_x" 100 20 0 = ⟨false, false⟩ ∧
    mainLoopTick ["node_a", "node_b"] "node_x" 100 20 0 = ⟨false, false⟩ :=
  ⟨no_write_when_empty_or_absent [] "node_x" 100 20 0 (Or.inl rfl),
   no_write_when_empty_or_absent ["node_a", "node_b"] "node_x" 100 20 0
     (Or.inr (by decide))⟩

theorem jlookup_node_creation (d : NodeData) :
    jlookup [("stream_id", d.stream_id), ("timestamp", Json.num d.timestamp),
             ("creation_timestamp", d.creation_timestamp)] "creation_timestamp" =
      some d.creation_timestamp := by
  simp [jlookup]

/-- C3: a heartbeat written over the record a previous push_heartbeat
produced preserves that record's creation_timestamp while refreshing its
timestamp to the new current time; in general any prior record carrying
a creation_timestamp field keeps it verbatim. -/
theorem push_heartbeat_preserves_creation :
    (∀ (prev : NodeFileRead) (s1 s2 : Json) (t1 t2 : Int) (d1 : NodeData),
       push_heartbeat prev s1 t1 = .ok d1 →
       d1.timestamp = t1 ∧
       ∃ d2, push_heartbeat (.parsed d1.toJson) s2 t2 = .ok d2 ∧
         d2.creation_timestamp = d1.creation_timestamp ∧ d2.timestamp = t2) ∧
    (∀ (fields : List (String × Json)) (c s : Json) (t : Int),
       jlookup fields "creation_timestamp" = some c →
       push_heartbeat (.parsed (.obj fields)) s t = .ok ⟨s, t, c⟩) := by
  constructor
  · intro prev s1 s2 t1 t2 d1 h1
    have ht1 : d1.timestamp = t1 := by
      cases prev with
      | absent => cases h1; rfl
      | unreadable => cases h1; rfl
      | parsed j =>
          cases j with
          | obj fields => cases h1; rfl
          | null => cases h1
          | bool b => cases h1
          | num n => cases h1
          | str s => cases h1
          | arr xs => cases h1
    refine ⟨ht1, ⟨s2, t2, d1.creation_timestamp⟩, ?_, rfl, rfl⟩
    have hred : push_heartbeat (.parsed d1.toJson) s2 t2 =
        .ok ⟨s2, t2,
          jgetD [("stream_id", d1.stream_id), ("timestamp", Json.num d1.timestamp),
                 ("creation_timestamp", d1.creation_timestamp)]
            "creation_timestamp" (Json.num t2)⟩ := rfl
    rw [hred]
    simp only [jgetD, jlookup_node_creation d1, Option.getD_some]
  · intro fields c s t h
    have hred : push_heartbeat (.parsed (.obj fields)) s t =
        .ok ⟨s, t, jgetD fields "creation_timestamp" (Json.num t)⟩ := rfl
    rw [hred]
    simp only [jgetD, h, Option.getD_some]

/-- C3 witness: a first heartbeat at t = 100 creates the record with
creation_timestamp 100; a second at t = 200 over it keeps creation 100
and refreshes the timestamp to 200; a prior record with creation 50 is
rewritten keeping 50. -/
theorem push_heartbeat_preserves_creation_witness :
    ((⟨Json.str "sid", 100, Json.num 100⟩ : NodeData).timestamp = 100 ∧
      ∃ d2, push_heartbeat (.parsed (NodeData.toJson ⟨Json.str "sid", 100, Json.num 100⟩))
            (Json.str "sid") 200 = .ok d2 ∧
        d2.creation_timestamp = (⟨Json.str "sid", 100, Json.num 100⟩ : NodeData).creation_timestamp ∧
        d2.timestamp = 200) ∧
    push_heartbeat (.parsed (.obj [("creation_timestamp", Json.num 50)]))
      (Json.str "sid") 300 = .ok ⟨Json.str "sid", 300, Json.num 50⟩ :=
  ⟨push_heartbeat_preserves_creation.1 .absent (Json.str "sid") (Json.str "sid")
      100 200 ⟨Json.str "sid", 100, Json.num 100⟩ rfl,
   push_heartbeat_preserves_creation.2 [("creation_timestamp", Json.num 50)]
      (Json.num 50) (Json.str "sid") 300 (by rw [jlookup, if_pos rfl])⟩

theorem buildNodes_eq (nodeFiles : List (String × Option Json))
    (hok : ∀ f ∈ nodeFiles, nodeFileOk f.2 = true) :
    buildNodes nodeFiles = .ok (nodeFiles.filterMap nodeEntryOf) := by
  induction nodeFiles with
  | nil => rfl
  | cons f rest ih =>
      obtain ⟨stem, c⟩ := f
      have hf := hok (stem, c) (List.mem_cons_self _ _)
      have ih' := ih (fun g hg => hok g (List.mem_cons_of_mem _ hg))
      cases c with
      | none =>
          simp only [buildNodes, ih', List.filterMap_cons]
          rfl
      | some j =>
          cases j with
          | obj fields =>
              simp only [buildNodes, ih', List.filterMap_cons]
              rfl
          | null => simp [nodeFileOk] at hf
          | bool b => simp [nodeFileOk] at hf
          | num n => simp [nodeFileOk] at hf
          | str s => simp [nodeFileOk] at hf
          | arr xs => simp [nodeFileOk] at hf

/-- C4: get_world_state returns every parseable node record and every
parseable event file (expired ones included, no time enters the build),
silently skips node files that fail to parse, and always returns an
empty connections list. -/
theorem get_world_state_aggregates
    (nodeFiles eventFiles : List (String × Option Json))
    (hok : ∀ f ∈ nodeFiles, nodeFileOk f.2 = true) :
    get_world_state nodeFiles eventFiles =
      .ok { nodes := nodeFiles.filterMap nodeEntryOf,
            connections := [],
            events := eventFiles.filterMap (fun f => f.2) } := by
  unfold get_world_state
  rw [buildNodes_eq nodeFiles hok]

/-- C4 witness: with one well-formed node file, one corrupt node file,
one expired and one live event file, the build succeeds, keeps the one
parseable node record and both events, and has empty connections. -/
theorem get_world_state_aggregates_witness :
    get_world_state sampleNodeFiles sampleEventFiles =
      .ok { nodes := sampleNodeFiles.filterMap nodeEntryOf,
            connections := [],
            events := sampleEventFiles.filterMap (fun f => f.2) } :=
  get_world_state_aggregates sampleNodeFiles sampleEventFiles (by decide)

/-- C5: under the bounded-retry policy (3 attempts), an operation that
fails twice with a git error and succeeds on the third attempt returns
its successful result with no error surfacing; one that fails on all
three attempts returns the failure signal None instead of raising. -/
theorem retry_returns_success_or_failure_signal
    {α : Type} (f : GitAttempt α) :
    (∀ v : α, f 0 = .error () → f 1 = .error () → f 2 = .ok v →
       retry_on_git_error f = some v) ∧
    ((∀ i, i < 3 → f i = .error ()) → retry_on_git_error f = none) := by
  constructor
  · intro v h0 h1 h2
    simp [retry_on_git_error, retryLoop, h0, h1, h2]
  · intro h
    simp [retry_on_git_error, retryLoop,
      h 0 (by omega), h 1 (by omega), h 2 (by omega)]

/-- C5 witness: an operation failing on attempts 0 and 1 and succeeding
on attempt 2 yields its result; one failing on every attempt yields the
failure signal. -/
theorem retry_returns_success_or_failure_signal_witness :
    retry_on_git_error (fun i => if i < 2 then .error () else .ok 42) = some 42 ∧
    retry_on_git_error (fun _ => (Except.error () : Except Unit Nat)) = none :=
  ⟨(retry_returns_success_or_failure_signal
      (fun i => if i < 2 then .error () else .ok 42)).1 42 rfl rfl rfl,
   (retry_returns_success_or_failure_signal
      (fun _ => (Except.error () : Except Unit Nat))).2 (fun _ _ => rfl)⟩

/-- C8 counterexample: push_event samples the clock separately for the
identifier and for the stored timestamp; when the samples straddle a
second boundary (here 5 then 6) the stored id differs from
type - node - published_at. -/
theorem push_event_id_counterexample :
    (push_event "pulse" "node_a" Json.null 60 5 6).id ≠
      (push_event "pulse" "node_a" Json.null 60 5 6).type ++ "-" ++
      (push_event "pulse" "node_a" Json.null 60 5 6).node_id ++ "-" ++
      Nat.repr (push_event "pulse" "node_a" Json.null 60 5 6).timestamp := by
  decide

/-- C8 amended: the id equals type - node - t where t is the clock
sample taken when the id is derived; whenever the two int(time.time())
samples of push_event agree (the same wall-clock second), the id equals
type - node - published_at; and two events by the same node with the
same type whose id samples fall in different seconds have distinct
identifiers. -/
theorem push_event_id_amended :
    (∀ (ty nid : String) (d : Json) (ttl : Int) (t1 t2 : Nat),
       (push_event ty nid d ttl t1 t2).id = ty ++ "-" ++ nid ++ "-" ++ Nat.repr t1) ∧
    (∀ (ty nid : String) (d : Json) (ttl : Int) (t1 t2 : Nat), t1 = t2 →
       (push_event ty nid d ttl t1 t2).id =
         ty ++ "-" ++ nid ++ "-" ++ Nat.repr (push_event ty nid d ttl t1 t2).timestamp) ∧
    (∀ (ty nid : String) (d d' : Json) (ttl ttl' : Int) (t1 t2 u1 u2 : Nat),
       t1 ≠ u1 →
       (push_event ty nid d ttl t1 t2).id ≠ (push_event ty nid d' ttl' u1 u2).id) := by
  refine ⟨fun _ _ _ _ _ _ => rfl, ?_, ?_⟩
  · intro ty nid d ttl t1 t2 h
    subst h
    rfl
  · intro ty nid d d' ttl ttl' t1 t2 u1 u2 h heq
    exact h (natRepr_injective (string_append_cancel_left heq))

/-- C8 amended witness: with both samples equal to 7 the id carries the
stored published_at; events sampled at seconds 5 and 6 get distinct
identifiers. -/
theorem push_event_id_amended_witness :
    (push_event "pulse" "node_a" Json.null 10 7 7).id =
      "pulse" ++ "-" ++ "node_a" ++ "-" ++
        Nat.repr (push_event "pulse" "node_a" Json.null 10 7 7).timestamp ∧
    (push_event "pulse" "node_a" Json.null 10 5 5).id ≠
      (push_event "pulse" "node_a" Json.null 10 6 6).id :=
  ⟨push_event_id_amended.2.1 "pulse" "node_a" Json.null 10 7 7 rfl,
   push_event_id_amended.2.2 "pulse" "node_a" Json.null Json.null 10 10 5 5 6 6
     (by decide)⟩

theorem get_config_node_id_of_unset {env : String → Option String}
    {u : List Char} {c : Config}
    (hnid : env "SYNAPSE_NODE_ID" = none) (hc : get_config env u = .ok c) :
    c.NODE_ID = genNodeId u := by
  cases hurl : env "SYNAPSE_GIT_REPO_URL" with
  | none => simp [get_config, hurl] at hc
  | some url =>
      simp only [get_config, hurl] at hc
      by_cases hu : url = ""
      · rw [if_pos hu] at hc
        exact absurd hc (by simp)
      · rw [if_neg hu] at hc
        cases hc
        simp only [nodeIdFromEnv, hnid]

/-- C10: get_config fails (ValueError) exactly when SYNAPSE_GIT_REPO_URL
is unset or empty; when set it is carried into GIT_REPO_URL unchanged;
with SYNAPSE_NODE_ID unset, NODE_ID is freshly generated from this
call's uuid4 draw as "node_" plus 8 hexadecimal characters, and distinct
draws give distinct identifiers (nothing is persisted). -/
theorem get_config_spec (env : String → Option String) (uuidHex : List Char)
    (hlen : uuidHex.length = 32)
    (hhex : ∀ ch ∈ uuidHex, isLowerHex ch = true) :
    ((∃ c, get_config env uuidHex = .ok c) ↔
      ¬(env "SYNAPSE_GIT_REPO_URL" = none ∨ env "SYNAPSE_GIT_REPO_URL" = some "")) ∧
    (∀ (url : String) (c : Config), env "SYNAPSE_GIT_REPO_URL" = some url →
       get_config env uuidHex = .ok c → c.GIT_REPO_URL = url) ∧
    (∀ c : Config, env "SYNAPSE_NODE_ID" = none → get_config env uuidHex = .ok c →
       ∃ cs : List Char, c.NODE_ID = "node_" ++ String.mk cs ∧ cs.length = 8 ∧
         ∀ ch ∈ cs, isLowerHex ch = true) ∧
    (∀ (u : List Char) (c c' : Config), env "SYNAPSE_NODE_ID" = none →
       get_config env uuidHex = .ok c → get_config env u = .ok c' →
       String.mk (uuidHex.take 8) ≠ String.mk (u.take 8) →
       c.NODE_ID ≠ c'.NODE_ID) := by
  refine ⟨?_, ?_, ?_, ?_⟩
  · constructor
    · rintro ⟨c, hc⟩ hbad
      rcases hbad with hb | hb
      · simp [get_config, hb] at hc
      · simp [get_config, hb] at hc
    · intro hn
      push_neg at hn
      obtain ⟨h1, h2⟩ := hn
      cases hurl : env "SYNAPSE_GIT_REPO_URL" with
      | none => exact absurd hurl h1
      | some url =>
          have hne : url ≠ "" := by
            intro hu
            exact h2 (by rw [hurl, hu])
          refine ⟨⟨nodeIdFromEnv env uuidHex, url, 30⟩, ?_⟩
          simp only [get_config, hurl]
          rw [if_neg hne]
  · intro url c hurl hc
    simp only [get_config, hurl] at hc
    by_cases hu : url = ""
    · rw [if_pos hu] at hc
      exact absurd hc (by simp)
    · rw [if_neg hu] at hc
      cases hc
      rfl
  · intro c hnid hc
    refine ⟨uuidHex.take 8, ?_, ?_, ?_⟩
    · rw [get_config_node_id_of_unset hnid hc]
      rfl
    · rw [List.length_take, hlen]
      simp
    · intro ch hch
      exact hhex ch (List.take_subset 8 uuidHex hch)
  · intro u c c' hnid hc hc' hne
    rw [get_config_node_id_of_unset hnid hc, get_config_node_id_of_unset hnid hc']
    intro heq
    exact hne (string_append_cancel_left heq)

/-- C10 witness: with SYNAPSE_GIT_REPO_URL set and SYNAPSE_NODE_ID
unset, the sample call succeeds, carries the url unchanged, and derives
a node_ id with 8 hex characters from the sample uuid draw. -/
theorem get_config_spec_witness :
    (∃ c, get_config sampleEnv sampleUuidHex = .ok c) ∧
    (∀ c : Config, sampleEnv "SYNAPSE_NODE_ID" = none →
       get_config sampleEnv sampleUuidHex = .ok c →
       ∃ cs : List Char, c.NODE_ID = "node_" ++ String.mk cs ∧ cs.length = 8 ∧
         ∀ ch ∈ cs, isLowerHex ch = true) :=
  ⟨(get_config_spec sampleEnv sampleUuidHex (by decide) (by decide)).1.mpr (by decide),
   (get_config_spec sampleEnv sampleUuidHex (by decide) (by decide)).2.2.1⟩

end Synapse
